import Mathlib

/-!
Verification of the pointer-range traversal utility in `src/main.cpp`.

The C++ program operates on a contiguous array of `int` through half-open
pointer ranges `[start, stop)`.  We embed a pointer into such an array as a
`Nat` index (the cursor position) and the array as a `List Int`.  The loop
`while (current != stop)` advances the cursor by one each iteration; in the
embedding the loop test `current != stop` is kept verbatim, and the branch
where the cursor has already moved past the sentinel (which in C++ is
undefined behaviour, excluded by the documented precondition) returns the
state unchanged so that the definition is total.

`increment_all` mutates the array in place; the embedding threads the list
state explicitly and returns the updated list.  `print_all` receives
const-qualified pointers: it can read but not write the array, so its
embedding threads the list state unchanged and additionally returns the
emitted output, one decimal string per visited element (modelling
`cout << *current << endl`).
-/

/-- Embedding of `increment_all` (src/main.cpp lines 32-38): starting at
cursor `current`, while the cursor differs from `stop`, increment the
pointed-to element and advance the cursor. -/
def increment_all (s : List Int) (current stop : Nat) : List Int :=
  if current = stop then s
  else if h : current < stop then
    increment_all (s.set current (s.getD current 0 + 1)) (current + 1) stop
  else s
termination_by stop - current
decreasing_by omega

/-- Embedding of `print_all` (src/main.cpp lines 40-46): starting at cursor
`current`, while the cursor differs from `stop`, emit the decimal
representation of the pointed-to element and advance the cursor.  The first
component is the array state after the call (threaded unchanged: the
const-qualified access path cannot write), the second is the list of emitted
lines. -/
def print_all (s : List Int) (current stop : Nat) : List Int × List String :=
  if current = stop then (s, [])
  else if h : current < stop then
    let rest := print_all s (current + 1) stop
    (rest.1, toString (s.getD current 0) :: rest.2)
  else (s, [])
termination_by stop - current
decreasing_by omega

/-- The array `numbers` constructed by `main` (src/main.cpp line 49). -/
def mainNumbers : List Int := [10, 20, 30]

/-- Embedding of `main` (src/main.cpp lines 48-53): build `numbers`, call
`increment_all(numbers, numbers+3)`, then `print_all(numbers, numbers+3)`,
and return 0.  Result: final array state, emitted output lines, exit code. -/
def mainRun : List Int × List String × Int :=
  let afterInc := increment_all mainNumbers 0 3
  let printed := print_all afterInc 0 3
  (printed.1, printed.2, 0)

/-- Fuel-indexed version of the `increment_all` loop, used to reason about
termination: each unit of fuel allows one more loop iteration; the loop
test is exactly `current != stop`.  Returns the final state and the final
cursor position on termination within the given fuel, `none` otherwise. -/
def increment_all_steps : Nat → List Int → Nat → Nat → Option (List Int × Nat)
  | 0, s, current, stop => if current = stop then some (s, current) else none
  | fuel + 1, s, current, stop =>
    if current = stop then some (s, current)
    else increment_all_steps fuel (s.set current (s.getD current 0 + 1)) (current + 1) stop

/-- Fuel-indexed version of the `print_all` loop, analogous to
`increment_all_steps`: returns the emitted lines and the final cursor
position on termination within the given fuel, `none` otherwise. -/
def print_all_steps : Nat → List Int → Nat → Nat → Option (List String × Nat)
  | 0, _, current, stop => if current = stop then some ([], current) else none
  | fuel + 1, s, current, stop =>
    if current = stop then some ([], current)
    else (print_all_steps fuel s (current + 1) stop).map
      (fun r => (toString (s.getD current 0) :: r.1, r.2))

/-- Definition written from the spec sentence of testable property 3, for
comparison with the composition of two `increment_all` calls: a single pass
over the same half-open range that adds 2 to every element in the range. -/
def add_two_pass (s : List Int) (current stop : Nat) : List Int :=
  if current = stop then s
  else if h : current < stop then
    add_two_pass (s.set current (s.getD current 0 + 2)) (current + 1) stop
  else s
termination_by stop - current
decreasing_by omega

/-! ### Characterization lemmas -/

theorem increment_all_length (s : List Int) (current stop : Nat) :
    (increment_all s current stop).length = s.length := by
  rw [increment_all]
  by_cases hc : current = stop
  · simp [hc]
  · rw [if_neg hc]
    by_cases hlt : current < stop
    · rw [dif_pos hlt, increment_all_length, List.length_set]
    · rw [dif_neg hlt]
termination_by stop - current
decreasing_by omega

theorem increment_all_getElem (s : List Int) (current stop : Nat)
    (h : stop ≤ s.length) (i : Nat) :
    (increment_all s current stop)[i]? =
      if current ≤ i ∧ i < stop then Option.map (· + 1) s[i]? else s[i]? := by
  rw [increment_all]
  by_cases hc : current = stop
  · subst hc
    rw [if_pos rfl, if_neg (by omega)]
  · rw [if_neg hc]
    by_cases hlt : current < stop
    · rw [dif_pos hlt]
      rw [increment_all_getElem _ (current + 1) stop (by simpa using h) i]
      by_cases hi : i = current
      · subst hi
        have hlen : i < s.length := lt_of_lt_of_le hlt h
        rw [if_neg (by omega), if_pos ⟨le_refl i, hlt⟩,
          List.getElem?_set_self hlen, List.getElem?_eq_getElem hlen,
          List.getD_eq_getElem?_getD, List.getElem?_eq_getElem hlen]
        rfl
      · rw [List.getElem?_set_ne (Ne.symm hi)]
        by_cases hcond : current ≤ i ∧ i < stop
        · rw [if_pos hcond, if_pos (show current + 1 ≤ i ∧ i < stop by omega)]
        · rw [if_neg hcond, if_neg (show ¬(current + 1 ≤ i ∧ i < stop) by omega)]
    · rw [dif_neg hlt, if_neg (by omega)]
termination_by stop - current
decreasing_by omega

theorem add_two_pass_getElem (s : List Int) (current stop : Nat)
    (h : stop ≤ s.length) (i : Nat) :
    (add_two_pass s current stop)[i]? =
      if current ≤ i ∧ i < stop then Option.map (· + 2) s[i]? else s[i]? := by
  rw [add_two_pass]
  by_cases hc : current = stop
  · subst hc
    rw [if_pos rfl, if_neg (by omega)]
  · rw [if_neg hc]
    by_cases hlt : current < stop
    · rw [dif_pos hlt]
      rw [add_two_pass_getElem _ (current + 1) stop (by simpa using h) i]
      by_cases hi : i = current
      · subst hi
        have hlen : i < s.length := lt_of_lt_of_le hlt h
        rw [if_neg (by omega), if_pos ⟨le_refl i, hlt⟩,
          List.getElem?_set_self hlen, List.getElem?_eq_getElem hlen,
          List.getD_eq_getElem?_getD, List.getElem?_eq_getElem hlen]
        rfl
      · rw [List.getElem?_set_ne (Ne.symm hi)]
        by_cases hcond : current ≤ i ∧ i < stop
        · rw [if_pos hcond, if_pos (show current + 1 ≤ i ∧ i < stop by omega)]
        · rw [if_neg hcond, if_neg (show ¬(current + 1 ≤ i ∧ i < stop) by omega)]
    · rw [dif_neg hlt, if_neg (by omega)]
termination_by stop - current
decreasing_by omega

theorem print_all_fst (s : List Int) (current stop : Nat) :
    (print_all s current stop).1 = s := by
  rw [print_all]
  by_cases hc : current = stop
  · simp [hc]
  · rw [if_neg hc]
    by_cases hlt : current < stop
    · rw [dif_pos hlt]
      exact print_all_fst s (current + 1) stop
    · rw [dif_neg hlt]
termination_by stop - current
decreasing_by omega

theorem print_all_snd (s : List Int) (current stop : Nat) (h : stop ≤ s.length) :
    (print_all s current stop).2 =
      ((s.drop current).take (stop - current)).map toString := by
  rw [print_all]
  by_cases hc : current = stop
  · simp [hc]
  · rw [if_neg hc]
    by_cases hlt : current < stop
    · rw [dif_pos hlt]
      have hlen : current < s.length := lt_of_lt_of_le hlt h
      show toString (s.getD current 0) :: (print_all s (current + 1) stop).2 = _
      rw [print_all_snd s (current + 1) stop h,
        List.drop_eq_getElem_cons hlen]
      have hts : stop - current = (stop - (current + 1)) + 1 := by omega
      rw [hts, List.take_succ_cons, List.map_cons]
      congr 1
      rw [List.getD_eq_getElem?_getD, List.getElem?_eq_getElem hlen]
      rfl
    · rw [dif_neg hlt]
      have hz : stop - current = 0 := by omega
      simp [hz]
termination_by stop - current
decreasing_by omega

theorem print_all_agrees_on_range (s t : List Int) (current stop : Nat)
    (hag : ∀ i, current ≤ i → i < stop → s.getD i 0 = t.getD i 0) :
    (print_all s current stop).2 = (print_all t current stop).2 := by
  unfold print_all
  by_cases hc : current = stop
  · simp [hc]
  · rw [if_neg hc, if_neg hc]
    by_cases hlt : current < stop
    · rw [dif_pos hlt, dif_pos hlt]
      show toString (s.getD current 0) :: (print_all s (current + 1) stop).2
        = toString (t.getD current 0) :: (print_all t (current + 1) stop).2
      rw [hag current (le_refl current) hlt,
        print_all_agrees_on_range s t (current + 1) stop
          (fun i h1 h2 => hag i (by omega) h2)]
    · rw [dif_neg hlt, dif_neg hlt]
termination_by stop - current
decreasing_by omega

theorem increment_all_steps_sound (n : Nat) (s : List Int) (current stop : Nat)
    (hn : stop - current = n) (h : current ≤ stop) :
    ∃ r, increment_all_steps n s current stop = some (r, stop) := by
  induction n generalizing s current
  case zero =>
    have hc : current = stop := by omega
    subst hc
    exact ⟨s, by simp [increment_all_steps]⟩
  case succ n ih =>
    have hne : current ≠ stop := by omega
    obtain ⟨r, hr⟩ :=
      ih (s.set current (s.getD current 0 + 1)) (current + 1) (by omega) (by omega)
    refine ⟨r, ?_⟩
    simp only [increment_all_steps]
    rw [if_neg hne]
    exact hr

theorem print_all_steps_sound (n : Nat) (s : List Int) (current stop : Nat)
    (hn : stop - current = n) (h : current ≤ stop) :
    ∃ out, print_all_steps n s current stop = some (out, stop) := by
  induction n generalizing s current
  case zero =>
    have hc : current = stop := by omega
    subst hc
    exact ⟨[], by simp [print_all_steps]⟩
  case succ n ih =>
    have hne : current ≠ stop := by omega
    obtain ⟨out, hout⟩ := ih s (current + 1) (by omega) (by omega)
    refine ⟨toString (s.getD current 0) :: out, ?_⟩
    simp only [print_all_steps]
    rw [if_neg hne, hout]
    rfl


/-! ### Claims -/

/-- C1: for every sequence `S` of length `n`, applying `increment_all` over
the full half-open range `[0, n)` of `S` increments every one of the `n`
elements by exactly 1, preserving the order and the length of the
sequence. -/
theorem increment_all_full_range (s : List Int) :
    increment_all s 0 s.length = s.map (· + 1) := by
  apply List.ext_getElem?
  intro n
  rw [increment_all_getElem s 0 s.length (le_refl _) n, List.getElem?_map]
  by_cases hn : n < s.length
  · rw [if_pos ⟨Nat.zero_le n, hn⟩]
  · rw [if_neg (by omega), List.getElem?_eq_none (by omega)]
    rfl

/-- C2: in the single scenario exercised by the entry point, the initial
sequence is `[10, 20, 30]`; after `increment_all` over the whole range the
sequence is `[11, 21, 31]`; `print_all` then emits exactly the three lines
`11`, `21`, `31` in that order, and the process exits with status code 0. -/
theorem main_scenario :
    mainNumbers = [10, 20, 30] ∧
      increment_all mainNumbers 0 3 = [11, 21, 31] ∧
      mainRun = ([11, 21, 31], ["11", "21", "31"], 0) := by
  have h1 : increment_all mainNumbers 0 3 = [11, 21, 31] := by
    simp [increment_all, mainNumbers]
  have h2 : print_all [11, 21, 31] 0 3 = ([11, 21, 31], ["11", "21", "31"]) := by
    simp [print_all]
    exact ⟨rfl, rfl, rfl⟩
  refine ⟨rfl, h1, ?_⟩
  simp only [mainRun, h1, h2]

/-- C3: for every sequence `S` of length `n`, `print_all` over the full
range emits exactly `n` lines, in ascending positional order, each line
being the decimal textual representation of the corresponding element. -/
theorem print_all_full_range (s : List Int) :
    (print_all s 0 s.length).2 = s.map toString := by
  rw [print_all_snd s 0 s.length (le_refl _)]
  simp

/-- C4: for every sequence `S` and every range over `S`, `print_all` leaves
every element of `S` unchanged: the sequence observable after the call
equals the sequence before the call. -/
theorem print_all_no_mutation (s : List Int) (start stop : Nat) :
    (print_all s start stop).1 = s :=
  print_all_fst s start stop

/-- C5: for every sequence `S` and every valid range over `S`, applying
`increment_all` twice in succession over the same range produces the same
final sequence as a single pass that adds 2 to every element in the
range. -/
theorem increment_all_twice (s : List Int) (start stop : Nat)
    (h1 : start ≤ stop) (h2 : stop ≤ s.length) :
    increment_all (increment_all s start stop) start stop =
      add_two_pass s start stop := by
  apply List.ext_getElem?
  intro n
  rw [increment_all_getElem _ start stop
      (by rw [increment_all_length]; exact h2) n,
    increment_all_getElem s start stop h2 n,
    add_two_pass_getElem s start stop h2 n]
  by_cases hc : start ≤ n ∧ n < stop
  · rw [if_pos hc, if_pos hc, if_pos hc, Option.map_map]
    cases s[n]? with
    | none => rfl
    | some a =>
      show some (a + 1 + 1) = some (a + 2)
      congr 1
      omega
  · rw [if_neg hc, if_neg hc, if_neg hc]

/-- Witness for C5 at the concrete sequence `[5, 7]` with the full range. -/
theorem increment_all_twice_witness :
    (0 : Nat) ≤ 2 ∧ 2 ≤ ([5, 7] : List Int).length ∧
      increment_all (increment_all [5, 7] 0 2) 0 2 = add_two_pass [5, 7] 0 2 :=
  ⟨by decide, by decide, increment_all_twice [5, 7] 0 2 (by decide) (by decide)⟩

/-- C6: for every sequence `S`, when the start cursor equals the sentinel
cursor (empty range), `increment_all` leaves `S` unchanged and `print_all`
produces no output (and also leaves `S` unchanged). -/
theorem empty_range_no_effect (s : List Int) (k : Nat) :
    increment_all s k k = s ∧ print_all s k k = (s, []) := by
  constructor
  · rw [increment_all, if_pos rfl]
  · rw [print_all, if_pos rfl]

/-- C7: under the precondition that the sentinel is reachable from the start
cursor by repeated single-element advancement (`start ≤ stop`), both loops
terminate — a fuel budget equal to the distance suffices — and each
traversal stops exactly when the advancing cursor equals the sentinel:
the final cursor position is `stop`. -/
theorem traversal_terminates_at_sentinel (s : List Int) (start stop : Nat)
    (h : start ≤ stop) :
    (∃ r, increment_all_steps (stop - start) s start stop = some (r, stop)) ∧
    (∃ out, print_all_steps (stop - start) s start stop = some (out, stop)) :=
  ⟨increment_all_steps_sound (stop - start) s start stop rfl h,
    print_all_steps_sound (stop - start) s start stop rfl h⟩

/-- Witness for C7 at the concrete sequence `[4, 5]` with the full range. -/
theorem traversal_terminates_at_sentinel_witness :
    (0 : Nat) ≤ 2 ∧
      ((∃ r, increment_all_steps (2 - 0) [4, 5] 0 2 = some (r, 2)) ∧
       (∃ out, print_all_steps (2 - 0) [4, 5] 0 2 = some (out, 2))) :=
  ⟨by decide, traversal_terminates_at_sentinel [4, 5] 0 2 (by decide)⟩

/-- C8: both operations are total over the documented precondition (the
sentinel reachable from the start cursor): run with sufficient fuel they
always return a result, never an error; and the entry point always
terminates with exit status 0 — there is no failure path. -/
theorem operations_total_and_main_succeeds (s : List Int) (start stop : Nat)
    (h : start ≤ stop) :
    (increment_all_steps (stop - start) s start stop).isSome = true ∧
      (print_all_steps (stop - start) s start stop).isSome = true ∧
      mainRun.2.2 = 0 := by
  obtain ⟨r, hr⟩ := increment_all_steps_sound (stop - start) s start stop rfl h
  obtain ⟨out, hout⟩ := print_all_steps_sound (stop - start) s start stop rfl h
  exact ⟨by rw [hr]; rfl, by rw [hout]; rfl, rfl⟩

/-- Witness for C8 at the concrete sequence `[1]` with the full range. -/
theorem operations_total_and_main_succeeds_witness :
    (0 : Nat) ≤ 1 ∧
      ((increment_all_steps (1 - 0) [1] 0 1).isSome = true ∧
       (print_all_steps (1 - 0) [1] 0 1).isSome = true ∧
       mainRun.2.2 = 0) :=
  ⟨by decide, operations_total_and_main_succeeds [1] 0 1 (by decide)⟩

/-- C9: for every sequence `S` and every valid subrange `[start, stop)` of
`S`, `increment_all` modifies only the elements whose positions lie in
`[start, stop)`; every element of `S` outside that subrange is unchanged
after the call. -/
theorem increment_all_frame (s : List Int) (start stop i : Nat)
    (h1 : start ≤ stop) (h2 : stop ≤ s.length) (hout : i < start ∨ stop ≤ i) :
    (increment_all s start stop)[i]? = s[i]? := by
  rw [increment_all_getElem s start stop h2 i, if_neg (by omega)]

/-- Witness for C9 at the concrete sequence `[1, 2, 3]`, subrange `[1, 2)`,
position `0` outside the subrange. -/
theorem increment_all_frame_witness :
    (1 : Nat) ≤ 2 ∧ 2 ≤ ([1, 2, 3] : List Int).length ∧ (0 < 1 ∨ 2 ≤ 0) ∧
      (increment_all [1, 2, 3] 1 2)[0]? = ([1, 2, 3] : List Int)[0]? :=
  ⟨by decide, by decide, by decide,
    increment_all_frame [1, 2, 3] 1 2 0 (by decide) (by decide) (by decide)⟩

/-- C10: both operations are deterministic — on equal sequences over the
same range, `increment_all` yields equal sequences and `print_all` yields
identical output — and the output of `print_all` depends only on the
contents of the visited range: sequences agreeing on `[start, stop)`
produce identical output. -/
theorem deterministic_and_range_dependent (s t : List Int) (start stop : Nat) :
    (s = t →
      increment_all s start stop = increment_all t start stop ∧
      print_all s start stop = print_all t start stop) ∧
    ((∀ i, start ≤ i → i < stop → s.getD i 0 = t.getD i 0) →
      (print_all s start stop).2 = (print_all t start stop).2) := by
  constructor
  · intro he
    subst he
    exact ⟨rfl, rfl⟩
  · intro hag
    exact print_all_agrees_on_range s t start stop hag

/-- Witness for C10: the deterministic part at the sequence `[3]`, and the
range-dependence part at `[3, 9]` and `[3, 8]`, which agree on the visited
range `[0, 1)` but differ outside it. -/
theorem deterministic_and_range_dependent_witness :
    (increment_all [3] 0 1 = increment_all [3] 0 1 ∧
      print_all [3] 0 1 = print_all [3] 0 1) ∧
    (print_all [3, 9] 0 1).2 = (print_all [3, 8] 0 1).2 :=
  ⟨(deterministic_and_range_dependent [3] [3] 0 1).1 rfl,
    (deterministic_and_range_dependent [3, 9] [3, 8] 0 1).2
      (fun i _ h2 => by
        have hi : i = 0 := Nat.lt_one_iff.mp h2
        subst hi
        rfl)⟩
